import Mathlib

/-!
Verification of the mortgage-interest booking engine
(`actual-mortgage-interest.ts`, its `part_000` service variant, and the
compiled `dist/actual-mortgage-interest.js`).

Calendar dates are modelled as explicit (year, month, day) triples with
JavaScript `Date` semantics: months are 0-based, and constructing a date
with an out-of-range day rolls into the adjacent months exactly as
`new Date(y, m, d)` does.  JavaScript floating-point numbers are idealised
as exact rationals (`ℚ`), except for `Math.pow(1 + r, 1/12)` in the
compiled dist variant, which is idealised as the real power function.
`Math.round` is `⌊x + 1/2⌋` (round half toward +∞), which is exactly
JavaScript's behaviour.
-/

/-- Calendar date: `year` is arbitrary, `month` is 0-based (0 = January,
matching JavaScript `Date.getMonth()`), `day` is 1-based. -/
structure CalDate where
  year : Int
  month : Nat
  day : Nat
deriving DecidableEq, Repr

/-- Gregorian leap year test (JavaScript `Date` calendar). -/
def isLeapYear (y : Int) : Bool :=
  (y % 4 == 0 && y % 100 != 0) || y % 400 == 0

/-- Number of days of month `m` (0-based) of year `y`; this is what
`endOfMonth(cursor).getDate()` computes in the source. -/
def daysInMonth (y : Int) (m : Nat) : Nat :=
  if m = 1 then (if isLeapYear y then 29 else 28)
  else if m = 3 ∨ m = 5 ∨ m = 8 ∨ m = 10 then 30
  else 31

/-- A structurally valid calendar date (what JavaScript would report as a
non-NaN date with these components). -/
def isValidDate (d : CalDate) : Prop :=
  d.month ≤ 11 ∧ 1 ≤ d.day ∧ d.day ≤ daysInMonth d.year d.month

instance instDecIsValidDate (d : CalDate) : Decidable (isValidDate d) := by
  unfold isValidDate
  exact inferInstance

/-- Strict chronological order on dates (timestamp order of midnight
local-time dates); `isAfter(a, b)` in date-fns is `dateLt b a`. -/
def dateLt (a b : CalDate) : Prop :=
  a.year < b.year ∨
    (a.year = b.year ∧ (a.month < b.month ∨ (a.month = b.month ∧ a.day < b.day)))

/-- Chronological order, non-strict. -/
def dateLe (a b : CalDate) : Prop :=
  a.year < b.year ∨
    (a.year = b.year ∧ (a.month < b.month ∨ (a.month = b.month ∧ a.day ≤ b.day)))

instance instDecDateLt (a b : CalDate) : Decidable (dateLt a b) := by
  unfold dateLt
  exact inferInstance

instance instDecDateLe (a b : CalDate) : Decidable (dateLe a b) := by
  unfold dateLe
  exact inferInstance

/-- Absolute month index (`year * 12 + month`), used to measure the loop. -/
def monthIdx (d : CalDate) : Int :=
  d.year * 12 + d.month

/-- Year component of an absolute month index (Euclidean division, which
is what the JavaScript month normalisation amounts to). -/
def yearOfIdx (t : Int) : Int := t / 12

/-- Month component (0-based) of an absolute month index. -/
def monthOfIdx (t : Int) : Nat := (t % 12).toNat

/-- First day of the month with absolute index `t`. -/
def monthDate (t : Int) : CalDate :=
  ⟨yearOfIdx t, monthOfIdx t, 1⟩

/-- Day-of-month normalisation of JavaScript `new Date(y, m, d)`: a day
outside `1 .. daysInMonth` rolls into the adjacent month.  `fuel` bounds
the number of month steps; callers supply enough fuel for the given day,
so the `0` case is unreachable. -/
def jsDayNorm : Nat → Int → Int → CalDate
  | 0, t, _ => ⟨yearOfIdx t, monthOfIdx t, 1⟩
  | fuel + 1, t, d =>
    if d < 1 then
      jsDayNorm fuel (t - 1) (d + (daysInMonth (yearOfIdx (t - 1)) (monthOfIdx (t - 1)) : Int))
    else if (daysInMonth (yearOfIdx t) (monthOfIdx t) : Int) < d then
      jsDayNorm fuel (t + 1) (d - (daysInMonth (yearOfIdx t) (monthOfIdx t) : Int))
    else ⟨yearOfIdx t, monthOfIdx t, d.toNat⟩

/-- JavaScript `new Date(y, m, d)` (components as in the constructor:
`m` and `d` may be out of range and are normalised). -/
def jsMkDate (y m d : Int) : CalDate :=
  jsDayNorm (d.natAbs + 2) (y * 12 + m) d

/-- date-fns `addMonths(d, 1)`: advance one calendar month, clamping the
day to the target month's length. -/
def addMonths1 (d : CalDate) : CalDate :=
  if d.month = 11 then ⟨d.year + 1, 0, min d.day (daysInMonth (d.year + 1) 0)⟩
  else ⟨d.year, d.month + 1, min d.day (daysInMonth d.year (d.month + 1))⟩

/-- JavaScript `Math.round`: round half toward positive infinity. -/
def jsRound (x : ℚ) : Int := ⌊x + 1/2⌋

/-- `calculateMonthlyInterest` of `src/unnamed/part_000` (also the second
draft inside `actual-mortgage-interest.ts`): simple interest with a fixed
30-day month, `round(balance * (annualRate / 365 * 30))`. -/
def calculateMonthlyInterest (balanceCents : Int) (annualRate : ℚ) : Int :=
  let dailyRate : ℚ := annualRate / 365
  let monthlyRate : ℚ := dailyRate * 30
  jsRound ((balanceCents : ℚ) * monthlyRate)

namespace MainTS

/-- `calculateMonthlyInterest` of `src/actual-mortgage-interest.ts`
(lines 54-60): a hard-coded daily rate `0.00009159` times a fixed 31
days; the `annualRate` argument is ignored by the source. -/
def calculateMonthlyInterest (balanceCents : Int) (annualRate : ℚ) : Int :=
  let dailyRate : ℚ := 9159 / 100000000
  let monthlyRate : ℚ := dailyRate * 31
  jsRound ((balanceCents : ℚ) * monthlyRate)

end MainTS

namespace Dist

/-- `calculateMonthlyInterest` of `src/dist/actual-mortgage-interest.js`
(lines 34-40): compound convention,
`round(balance * (pow(1 + annualRate, 1/12) - 1))`, with `Math.pow`
idealised as the real power function. -/
noncomputable def calculateMonthlyInterest (balanceCents : Int) (annualRate : ℝ) : Int :=
  ⌊(balanceCents : ℝ) * ((1 + annualRate) ^ ((1 : ℝ)/12) - 1) + 1/2⌋

end Dist

/-- Zero-padded two-digit rendering of a number (date-fns `MM`). -/
def pad2 (n : Nat) : String :=
  if n < 10 then "0" ++ toString n else toString n

/-- Zero-padded four-digit rendering of a year (date-fns `yyyy`). -/
def pad4 (y : Int) : String :=
  let n := y.toNat
  if n < 10 then "000" ++ toString n
  else if n < 100 then "00" ++ toString n
  else if n < 1000 then "0" ++ toString n
  else toString n

/-- date-fns `format(d, "yyyy-MM")`, the period string. -/
def formatYYYYMM (d : CalDate) : String :=
  pad4 d.year ++ "-" ++ pad2 (d.month + 1)

/-- The `Transaction` record submitted to `addTransactions` (field names
as in the source's `Transaction` interface; the `date` string is kept as
a calendar date). -/
structure Txn where
  date : CalDate
  amount : Int
  account : String
  payee_name : String
  category : String
  cleared : Bool
  imported_id : String
  notes : String

/-- The per-run configuration fields the engine loop reads (`annualRate`,
`bookingDay`, `dryRun` of the source `Config`). -/
structure Cfg where
  annualRate : ℚ
  bookingDay : Int
  dryRun : Bool

/-- The run's resolved external collaborators: resolved account and
category ids, the ledger's balance oracle (`getAccountBalance`), and the
normalised `today`. -/
structure Env where
  mortgageId : String
  catId : String
  balance : CalDate → Int
  today : CalDate

/-- Modelled from the spec: the `listTransactions(accountId, fromDate,
toDate)` collaborator of §6 — the external ledger returns the
transactions of the account whose dates lie in the inclusive window.
The ledger itself is modelled as the list of its transactions. -/
def listTransactions (ledger : List Txn) (accountId : String)
    (fromDate toDate : CalDate) : List Txn :=
  ledger.filter (fun t =>
    t.account == accountId && decide (dateLe fromDate t.date) && decide (dateLe t.date toDate))

/-- `hasPostedInterest` of `part_000`: does any returned transaction carry
the period's `imported_id`? -/
def hasPostedInterest (transactions : List Txn) (importedId : String) : Bool :=
  transactions.any (fun t => t.imported_id == importedId)

/-- `BookingDates` of the source. -/
structure BookingDates where
  bookDate : CalDate
  asOfDate : CalDate
deriving DecidableEq, Repr

/-- `calculateBookingDates(cursor, bookingDay)` of `part_000` (inlined in
`mainWithDeps` of the main file): clamp the booking day to the month's
last day, build the booking date, and build the as-of date as the first
of the month moved back one day (`setDate(getDate() - 1)`); the
`isNaN` guard is the final validity check. -/
def calculateBookingDates (cursor : CalDate) (bookingDay : Int) :
    Except String BookingDates :=
  let lastDay : Nat := daysInMonth cursor.year cursor.month
  let bookingDayAdjusted : Int := min bookingDay (lastDay : Int)
  let bookDate : CalDate := jsMkDate cursor.year (cursor.month : Int) bookingDayAdjusted
  let a0 : CalDate := jsMkDate cursor.year (cursor.month : Int) 1
  let asOfDate : CalDate := jsMkDate a0.year (a0.month : Int) ((a0.day : Int) - 1)
  if isValidDate bookDate ∧ isValidDate asOfDate then .ok ⟨bookDate, asOfDate⟩
  else .error ("Invalid booking or asOf date for period " ++ formatYYYYMM cursor)

/-- Spec formula for the snapshot date: `firstDayOfMonth(p) - 1 day`,
i.e. the last day of the previous month of `(y, m)`. -/
def lastDayOfPrevMonth (y : Int) (m : Nat) : CalDate :=
  if m = 0 then ⟨y - 1, 11, daysInMonth (y - 1) 11⟩
  else ⟨y, m - 1, daysInMonth y (m - 1)⟩

/-- One iteration of the engine loop (`processPeriod` of `part_000`,
inlined in `mainWithDeps`): idempotency check against the ledger window
`[first-of-month, today]`, date derivation, balance fetch, accrual
computation, then commit unless `dryRun`.  Returns the new ledger and
the list of transactions passed to `addTransactions` (empty on skip or
dry run); a date-derivation failure aborts (`Except.error`). -/
def processPeriod (cfg : Cfg) (env : Env) (cursor : CalDate) (ledger : List Txn) :
    Except String (List Txn × List Txn) :=
  let period := formatYYYYMM cursor
  let importedId := "interest-" ++ period
  let existing := listTransactions ledger env.mortgageId ⟨cursor.year, cursor.month, 1⟩ env.today
  if hasPostedInterest existing importedId then .ok (ledger, [])
  else
    match calculateBookingDates cursor cfg.bookingDay with
    | .error e => .error e
    | .ok bds =>
      let balanceCents := env.balance bds.asOfDate
      let interestCents := calculateMonthlyInterest balanceCents cfg.annualRate
      if cfg.dryRun then .ok (ledger, [])
      else
        let txn : Txn :=
          { date := bds.bookDate
            amount := interestCents
            account := env.mortgageId
            payee_name := "Hypotheekrente"
            category := env.catId
            cleared := true
            imported_id := importedId
            notes := "Auto-generated hypotheekrente voor " ++ period }
        .ok (ledger ++ [txn], [txn])

/-- The engine loop `while (!isAfter(cursor, today))` with an explicit
fuel argument (structural recursion); `fuelFor` below supplies exactly
enough fuel, so the `0` case coincides with the loop exit.  Returns the
final ledger (or the propagated error) together with all transactions
committed before termination. -/
def runLoopFuel (cfg : Cfg) (env : Env) :
    Nat → CalDate → List Txn → Except String (List Txn) × List Txn
  | fuel, cursor, ledger =>
    if dateLt env.today cursor then (.ok ledger, [])
    else
      match fuel with
      | 0 => (.ok ledger, [])
      | fuel' + 1 =>
        match processPeriod cfg env cursor ledger with
        | .error e => (.error e, [])
        | .ok (ledger', added) =>
          let res := runLoopFuel cfg env fuel' (addMonths1 cursor) ledger'
          (res.1, added ++ res.2)

/-- Number of loop iterations from `cursor` up to and including `today`'s
month. -/
def fuelFor (cursor today : CalDate) : Nat :=
  (monthIdx today + 1 - monthIdx cursor).toNat

/-- One engine run over the ledger, starting from the resolved cursor. -/
def runEngine (cfg : Cfg) (env : Env) (cursor0 : CalDate) (ledger : List Txn) :
    Except String (List Txn) × List Txn :=
  runLoopFuel cfg env (fuelFor cursor0 env.today) cursor0 ledger

/-- The sequence of periods the loop iterates over, with the same
structure as `runLoopFuel`. -/
def periodsFromFuel (today : CalDate) : Nat → CalDate → List CalDate
  | fuel, cursor =>
    if dateLt today cursor then []
    else
      match fuel with
      | 0 => []
      | fuel' + 1 => cursor :: periodsFromFuel today fuel' (addMonths1 cursor)

/-- The periods processed by one run starting at `cursor0`. -/
def periodsFrom (cursor0 today : CalDate) : List CalDate :=
  periodsFromFuel today (fuelFor cursor0 today) cursor0

/-- Splitting a character list at every `'-'` (helper of the ISO parser). -/
def splitDash : List Char → List (List Char)
  | [] => [[]]
  | c :: rest =>
    let r := splitDash rest
    if c = '-' then [] :: r
    else
      match r with
      | [] => [[c]]
      | h :: t => (c :: h) :: t

/-- Decimal digits to a number, `none` on empty or non-digit input. -/
def digitsToNat (cs : List Char) : Option Nat :=
  if cs ≠ [] ∧ cs.all (fun c => c.isDigit) then
    some (cs.foldl (fun a c => a * 10 + (c.toNat - '0'.toNat)) 0)
  else none

/-- Modelled from the spec: date-fns `parseISO` restricted to the
configuration surface's `YYYY-MM-DD` calendar dates (§6: "explicit start
date (optional, ISO calendar date)"); any string that is not a valid
calendar date in that form yields an invalid date (`none`). -/
def parseISO (s : String) : Option CalDate :=
  match splitDash s.data with
  | [ys, ms, ds] =>
    match digitsToNat ys, digitsToNat ms, digitsToNat ds with
    | some y, some mo, some d =>
      if ys.length = 4 ∧ ms.length = 2 ∧ ds.length = 2 ∧
          1 ≤ mo ∧ mo ≤ 12 ∧ 1 ≤ d ∧ d ≤ daysInMonth (y : Int) (mo - 1) then
        some ⟨(y : Int), mo - 1, d⟩
      else none
    | _, _, _ => none
  | _ => none

/-- `getCursorStartDate` of `part_000` (inlined in `mainWithDeps`): an
explicit `FROM_DATE` (JavaScript-truthy, i.e. a non-empty string) is
parsed and truncated to its month — raising on an unparseable value —
otherwise the cursor starts at the first day of `today`'s month. -/
def getCursorStartDate (fromDate : Option String) (today : CalDate) :
    Except String CalDate :=
  match fromDate with
  | some s =>
    if s ≠ "" then
      match parseISO s with
      | none => .error ("Invalid FROM_DATE: " ++ s)
      | some parsed => .ok ⟨parsed.year, parsed.month, 1⟩
    else .ok ⟨today.year, today.month, 1⟩
  | none => .ok ⟨today.year, today.month, 1⟩

/-- The transaction record a commit of period `c` constructs. -/
def interestTxn (cfg : Cfg) (env : Env) (c : CalDate) (bds : BookingDates) : Txn :=
  { date := bds.bookDate
    amount := calculateMonthlyInterest (env.balance bds.asOfDate) cfg.annualRate
    account := env.mortgageId
    payee_name := "Hypotheekrente"
    category := env.catId
    cleared := true
    imported_id := "interest-" ++ formatYYYYMM c
    notes := "Auto-generated hypotheekrente voor " ++ formatYYYYMM c }

/-- The ledger `L` holds a record that period `p`'s idempotency check
(window `[first-of-month(p), today]`, key `interest-YYYY-MM`) will find. -/
def CoversMonth (L : List Txn) (acc : String) (today p : CalDate) : Prop :=
  ∃ t ∈ L, t.account = acc ∧ t.imported_id = "interest-" ++ formatYYYYMM p ∧
    dateLe ⟨p.year, p.month, 1⟩ t.date ∧ dateLe t.date today

/-- First-run output of the counterexample scenario: today is 2024-05-10,
booking day 25, dry run off, empty initial ledger. -/
def c1Run1 : Except String (List Txn) × List Txn :=
  runEngine ⟨4/100, 25, false⟩ ⟨"acct", "cat", fun _ => 10000000, ⟨2024, 4, 10⟩⟩
    ⟨2024, 4, 1⟩ []

/-- The ledger left by the first counterexample run. -/
def c1Ledger1 : List Txn :=
  match c1Run1.1 with
  | .ok l => l
  | .error _ => []

-- Sanity checks of the calendar model (concrete evaluation).
example : daysInMonth 2024 1 = 29 := by decide
example : daysInMonth 2023 1 = 28 := by decide
example : daysInMonth 2024 3 = 30 := by decide
example : jsMkDate 2024 4 0 = ⟨2024, 3, 30⟩ := by decide
example : jsMkDate 2024 0 0 = ⟨2023, 11, 31⟩ := by decide
example : jsMkDate 2024 12 1 = ⟨2025, 0, 1⟩ := by decide
example : addMonths1 ⟨2024, 11, 1⟩ = ⟨2025, 0, 1⟩ := by decide
example : formatYYYYMM ⟨2024, 4, 1⟩ = "2024-05" := by decide

-- Sanity checks of the engine model (concrete evaluation).
example : parseISO "2024-01-15" = some ⟨2024, 0, 15⟩ := by decide
example : parseISO "" = none := by decide
example : parseISO "2023-02-29" = none := by decide
example : calculateBookingDates ⟨2024, 4, 1⟩ 25 = .ok ⟨⟨2024, 4, 25⟩, ⟨2024, 3, 30⟩⟩ := rfl
example : calculateBookingDates ⟨2024, 3, 1⟩ 31 = .ok ⟨⟨2024, 3, 30⟩, ⟨2024, 2, 31⟩⟩ := rfl
example :
    (runEngine ⟨4/100, 25, false⟩ ⟨"acct", "cat", fun _ => 10000000, ⟨2024, 4, 10⟩⟩
      ⟨2024, 4, 1⟩ []).2.map Txn.imported_id = ["interest-2024-05"] := by decide

theorem daysInMonth_ge (y : Int) (m : Nat) : 28 ≤ daysInMonth y m := by
  unfold daysInMonth
  split
  · split <;> omega
  · split <;> omega

theorem daysInMonth_le (y : Int) (m : Nat) : daysInMonth y m ≤ 31 := by
  unfold daysInMonth
  split
  · split <;> omega
  · split <;> omega

/-! ## Calendar lemmas -/

theorem yearOfIdx_monthOfIdx (y : Int) (m : Nat) (hm : m ≤ 11) :
    yearOfIdx (y * 12 + m) = y ∧ monthOfIdx (y * 12 + m) = m := by
  unfold yearOfIdx monthOfIdx
  omega

theorem monthOfIdx_le (t : Int) : monthOfIdx t ≤ 11 := by
  unfold monthOfIdx
  omega

theorem jsDayNorm_in_range (f : Nat) (t d : Int)
    (h1 : 1 ≤ d) (h2 : d ≤ (daysInMonth (yearOfIdx t) (monthOfIdx t) : Int))
    (hf : 1 ≤ f) :
    jsDayNorm f t d = ⟨yearOfIdx t, monthOfIdx t, d.toNat⟩ := by
  match f, hf with
  | f' + 1, _ =>
    unfold jsDayNorm
    rw [if_neg (by omega), if_neg (by omega)]

theorem jsMkDate_in_range (y : Int) (m : Nat) (d : Int) (hm : m ≤ 11)
    (h1 : 1 ≤ d) (h2 : d ≤ (daysInMonth y m : Int)) :
    jsMkDate y (m : Int) d = ⟨y, m, d.toNat⟩ := by
  obtain ⟨hy, hmo⟩ := yearOfIdx_monthOfIdx y m hm
  unfold jsMkDate
  rw [jsDayNorm_in_range _ _ _ h1 (by rw [hy, hmo]; exact h2) (by omega), hy, hmo]

theorem jsMkDate_day_zero (y : Int) (m : Nat) (hm : m ≤ 11) :
    jsMkDate y (m : Int) 0 = lastDayOfPrevMonth y m := by
  unfold jsMkDate
  show jsDayNorm 2 (y * 12 + m) 0 = _
  unfold jsDayNorm
  rw [if_pos (by omega)]
  have hprev : yearOfIdx (y * 12 + (m : Int) - 1) = (if m = 0 then y - 1 else y) ∧
      monthOfIdx (y * 12 + (m : Int) - 1) = (if m = 0 then 11 else m - 1) := by
    unfold yearOfIdx monthOfIdx
    split <;> omega
  obtain ⟨hy, hmo⟩ := hprev
  rw [jsDayNorm_in_range 1 _ _ (by have := daysInMonth_ge (yearOfIdx (y * 12 + (m : Int) - 1)) (monthOfIdx (y * 12 + (m : Int) - 1)); omega) (by omega) (by omega)]
  unfold lastDayOfPrevMonth
  rw [hy, hmo]
  split <;> simp

theorem addMonths1_day_one (c : CalDate) (hday : c.day = 1) (hm : c.month ≤ 11) :
    (addMonths1 c).day = 1 ∧ (addMonths1 c).month ≤ 11 := by
  unfold addMonths1
  split <;> simp [hday] <;>
    [have := daysInMonth_ge (c.year + 1) 0; have := daysInMonth_ge c.year (c.month + 1)] <;>
    omega

theorem monthIdx_addMonths1 (c : CalDate) (hm : c.month ≤ 11) :
    monthIdx (addMonths1 c) = monthIdx c + 1 := by
  unfold addMonths1 monthIdx
  split <;> simp <;> omega

theorem monthDate_day (t : Int) : (monthDate t).day = 1 := rfl

theorem monthDate_month_le (t : Int) : (monthDate t).month ≤ 11 :=
  monthOfIdx_le t

theorem monthIdx_monthDate (t : Int) : monthIdx (monthDate t) = t := by
  unfold monthIdx monthDate yearOfIdx monthOfIdx
  simp only
  omega

theorem monthDate_monthIdx (c : CalDate) (hday : c.day = 1) (hm : c.month ≤ 11) :
    monthDate (monthIdx c) = c := by
  obtain ⟨y, m, d⟩ := c
  simp only at hday hm
  unfold monthDate monthIdx yearOfIdx monthOfIdx
  simp only [CalDate.mk.injEq]
  subst hday
  omega

theorem addMonths1_monthDate (t : Int) :
    addMonths1 (monthDate t) = monthDate (t + 1) := by
  have h1 : (addMonths1 (monthDate t)).day = 1 ∧ (addMonths1 (monthDate t)).month ≤ 11 :=
    addMonths1_day_one _ rfl (monthDate_month_le t)
  have h2 : monthIdx (addMonths1 (monthDate t)) = t + 1 := by
    rw [monthIdx_addMonths1 _ (monthDate_month_le t), monthIdx_monthDate]
  calc addMonths1 (monthDate t)
      = monthDate (monthIdx (addMonths1 (monthDate t))) :=
        (monthDate_monthIdx _ h1.1 h1.2).symm
    _ = monthDate (t + 1) := by rw [h2]

theorem monthIdx_lt_of_pair (a b : CalDate) (ha : a.month ≤ 11) (hb : b.month ≤ 11)
    (h : a.year < b.year ∨ (a.year = b.year ∧ a.month < b.month)) :
    monthIdx a < monthIdx b := by
  unfold monthIdx
  omega

theorem pair_of_monthIdx_lt (a b : CalDate) (ha : a.month ≤ 11) (hb : b.month ≤ 11)
    (h : monthIdx a < monthIdx b) :
    a.year < b.year ∨ (a.year = b.year ∧ a.month < b.month) := by
  unfold monthIdx at h
  omega

theorem pair_of_monthIdx_eq (a b : CalDate) (ha : a.month ≤ 11) (hb : b.month ≤ 11)
    (h : monthIdx a = monthIdx b) :
    a.year = b.year ∧ a.month = b.month := by
  unfold monthIdx at h
  omega

theorem monthIdx_le_of_not_after (c T : CalDate) (hc : c.month ≤ 11) (hT : T.month ≤ 11)
    (h : ¬ dateLt T c) : monthIdx c ≤ monthIdx T := by
  unfold dateLt at h
  unfold monthIdx
  omega

theorem monthIdx_lt_of_after (c T : CalDate) (hc : c.month ≤ 11) (hT : T.month ≤ 11)
    (hcd : c.day = 1) (hTd : 1 ≤ T.day) (h : dateLt T c) :
    monthIdx T < monthIdx c := by
  unfold dateLt at h
  unfold monthIdx
  omega

theorem not_after_of_monthIdx_le (c T : CalDate) (hc : c.month ≤ 11) (hT : T.month ≤ 11)
    (hcd : c.day = 1) (hTd : 1 ≤ T.day) (h : monthIdx c ≤ monthIdx T) :
    ¬ dateLt T c := by
  unfold dateLt
  unfold monthIdx at h
  omega

theorem dateLt_monthDate_succ (t : Int) : dateLt (monthDate t) (monthDate (t + 1)) := by
  unfold dateLt monthDate yearOfIdx monthOfIdx
  simp only
  omega

/-! ## Date-derivation lemmas (`calculateBookingDates`) -/

theorem isValid_lastDayOfPrevMonth (y : Int) (m : Nat) (hm : m ≤ 11) :
    isValidDate (lastDayOfPrevMonth y m) := by
  unfold lastDayOfPrevMonth isValidDate
  split
  · exact ⟨le_refl 11,
      by show 1 ≤ daysInMonth (y - 1) 11; have := daysInMonth_ge (y - 1) 11; omega,
      le_refl _⟩
  · exact ⟨by show m - 1 ≤ 11; omega,
      by show 1 ≤ daysInMonth y (m - 1); have := daysInMonth_ge y (m - 1); omega,
      le_refl _⟩

theorem calculateBookingDates_spec (y : Int) (m : Nat) (bd : Int)
    (hm : m ≤ 11) (hbd : 1 ≤ bd) :
    calculateBookingDates ⟨y, m, 1⟩ bd =
      .ok ⟨⟨y, m, (min bd (daysInMonth y m : Int)).toNat⟩, lastDayOfPrevMonth y m⟩ := by
  have hdim := daysInMonth_ge y m
  have hbk : jsMkDate y (m : Int) (min bd (daysInMonth y m : Int)) =
      ⟨y, m, (min bd (daysInMonth y m : Int)).toNat⟩ :=
    jsMkDate_in_range y m _ hm (by omega) (min_le_right _ _)
  have ha0 : jsMkDate y (m : Int) 1 = ⟨y, m, 1⟩ := by
    have h := jsMkDate_in_range y m 1 hm (by omega) (by omega)
    simpa using h
  have hvb : isValidDate ⟨y, m, (min bd (daysInMonth y m : Int)).toNat⟩ :=
    ⟨hm, by show 1 ≤ (min bd (daysInMonth y m : Int)).toNat; omega,
      by show (min bd (daysInMonth y m : Int)).toNat ≤ daysInMonth y m; omega⟩
  simp only [calculateBookingDates, ha0, hbk]
  norm_num
  rw [jsMkDate_day_zero y m hm]
  rw [if_pos]
  refine ⟨?_, ?_⟩
  · exact hvb
  · exact isValid_lastDayOfPrevMonth y m hm

theorem calculateBookingDates_day_zero (y : Int) (m : Nat) (hm : m ≤ 11) :
    calculateBookingDates ⟨y, m, 1⟩ 0 =
      .ok ⟨lastDayOfPrevMonth y m, lastDayOfPrevMonth y m⟩ := by
  have hdim := daysInMonth_ge y m
  have hmin : min (0 : Int) ((daysInMonth y m : Nat) : Int) = 0 := by omega
  have ha0 : jsMkDate y (m : Int) 1 = ⟨y, m, 1⟩ := by
    have h := jsMkDate_in_range y m 1 hm (by omega) (by omega)
    simpa using h
  simp only [calculateBookingDates, ha0, hmin]
  norm_num
  rw [jsMkDate_day_zero y m hm]
  rw [if_pos]
  obtain ⟨w1, w2, w3⟩ := isValid_lastDayOfPrevMonth y m hm
  exact ⟨w1, w2, w3⟩

/-- Claim C4: for every period (a first-of-month date with a real month)
and every configured booking day `≥ 1`, the derived booking date is
`date(year(p), month(p), min(bookingDay, lastDayOfMonth(p)))` — in the
period's own month, with the day clamped between 1 and the month's last
day, so a booking day of 31 degrades to day 30 in a 30-day month and
never overflows into the next month.  The snapshot date is the last day
of the previous month. -/
theorem C4_booking_day_clamp (y : Int) (m : Nat) (bd : Int)
    (hm : m ≤ 11) (hbd : 1 ≤ bd) :
    calculateBookingDates ⟨y, m, 1⟩ bd =
      .ok ⟨⟨y, m, (min bd (daysInMonth y m : Int)).toNat⟩, lastDayOfPrevMonth y m⟩ ∧
    1 ≤ (min bd (daysInMonth y m : Int)).toNat ∧
    (min bd (daysInMonth y m : Int)).toNat ≤ daysInMonth y m := by
  refine ⟨calculateBookingDates_spec y m bd hm hbd, ?_, ?_⟩ <;>
    have := daysInMonth_ge y m <;> omega

/-- Claim C4 witness: booking day 31 in April 2024 (a 30-day month) books
on 2024-04-30, day 30 of the same month. -/
theorem C4_booking_day_clamp_witness :
    calculateBookingDates ⟨2024, 3, 1⟩ 31 =
      .ok ⟨⟨2024, 3, (min (31 : Int) ((daysInMonth 2024 3 : Nat) : Int)).toNat⟩,
        lastDayOfPrevMonth 2024 3⟩ ∧
    calculateBookingDates ⟨2024, 3, 1⟩ 31 = .ok ⟨⟨2024, 3, 30⟩, ⟨2024, 2, 31⟩⟩ :=
  ⟨(C4_booking_day_clamp 2024 3 31 (by omega) (by omega)).1, rfl⟩

/-- Claim C5: for every period, whatever the configured booking day, the
derived snapshot (as-of) date is the last day of the previous month
(`firstDayOfMonth(p) - 1 day`). -/
theorem C5_snapshot_date (y : Int) (m : Nat) (bd : Int) (bds : BookingDates)
    (hm : m ≤ 11) (h : calculateBookingDates ⟨y, m, 1⟩ bd = .ok bds) :
    bds.asOfDate = lastDayOfPrevMonth y m := by
  have hdim := daysInMonth_ge y m
  have ha0 : jsMkDate y (m : Int) 1 = ⟨y, m, 1⟩ := by
    have h0 := jsMkDate_in_range y m 1 hm (by omega) (by omega)
    simpa using h0
  simp only [calculateBookingDates, ha0] at h
  norm_num at h
  rw [jsMkDate_day_zero y m hm] at h
  split at h
  · cases h
    rfl
  · cases h

/-- Claim C5 witness: for period 2024-05-01 the snapshot date is
2024-04-30. -/
theorem C5_snapshot_date_witness :
    (⟨⟨2024, 4, 25⟩, ⟨2024, 3, 30⟩⟩ : BookingDates).asOfDate = lastDayOfPrevMonth 2024 4 ∧
    lastDayOfPrevMonth 2024 4 = ⟨2024, 3, 30⟩ :=
  ⟨C5_snapshot_date 2024 4 25 _ (by omega) rfl, by decide⟩

/-- Claim C9: for every valid first-of-month cursor and every integer
booking day `≥ 1`, both derived dates are valid calendar dates and
`calculateBookingDates` returns them successfully — the
`DateDerivationError` guard is unreachable. -/
theorem C9_guard_unreachable (y : Int) (m : Nat) (bd : Int)
    (hm : m ≤ 11) (hbd : 1 ≤ bd) :
    isValidDate ⟨y, m, (min bd (daysInMonth y m : Int)).toNat⟩ ∧
    isValidDate (lastDayOfPrevMonth y m) ∧
    (calculateBookingDates ⟨y, m, 1⟩ bd).isOk = true := by
  have hdim := daysInMonth_ge y m
  refine ⟨⟨hm, by show 1 ≤ (min bd (daysInMonth y m : Int)).toNat; omega,
    by show (min bd (daysInMonth y m : Int)).toNat ≤ daysInMonth y m; omega⟩,
    isValid_lastDayOfPrevMonth y m hm, ?_⟩
  rw [calculateBookingDates_spec y m bd hm hbd]
  rfl

/-- Claim C9 witness: February 2024 with booking day 31 derives valid
dates (book date 2024-02-29) and no error. -/
theorem C9_guard_unreachable_witness :
    isValidDate ⟨2024, 1, (min (31 : Int) ((daysInMonth 2024 1 : Nat) : Int)).toNat⟩ ∧
    isValidDate (lastDayOfPrevMonth 2024 1) ∧
    (calculateBookingDates ⟨2024, 1, 1⟩ 31).isOk = true :=
  C9_guard_unreachable 2024 1 31 (by omega) (by omega)

/-- Claim C10: a configured booking day of 0 is accepted without error,
and the booking date becomes the last day of the month before the
period (JavaScript day-0 semantics) — strictly before the period's first
day, so the booking date is not in the period's month. -/
theorem C10_booking_day_zero (y : Int) (m : Nat) (hm : m ≤ 11) :
    calculateBookingDates ⟨y, m, 1⟩ 0 =
      .ok ⟨lastDayOfPrevMonth y m, lastDayOfPrevMonth y m⟩ ∧
    dateLt (lastDayOfPrevMonth y m) ⟨y, m, 1⟩ := by
  refine ⟨calculateBookingDates_day_zero y m hm, ?_⟩
  unfold lastDayOfPrevMonth dateLt
  split <;> simp <;> omega

/-- Claim C10 witness: booking day 0 for period 2024-03-01 books on
2024-02-29, the last day of the previous month, with no error. -/
theorem C10_booking_day_zero_witness :
    calculateBookingDates ⟨2024, 2, 1⟩ 0 =
      .ok ⟨lastDayOfPrevMonth 2024 2, lastDayOfPrevMonth 2024 2⟩ ∧
    dateLt (lastDayOfPrevMonth 2024 2) ⟨2024, 2, 1⟩ :=
  C10_booking_day_zero 2024 2 (by omega)

/-! ## Accrual-amount claims (C2, C8) -/

theorem dist_compound_27901 :
    Dist.calculateMonthlyInterest 10000000 (34/1000) = 27901 := by
  unfold Dist.calculateMonthlyInterest
  have hbase : (0:ℝ) ≤ 1 + 34/1000 := by norm_num
  set t : ℝ := (1 + 34/1000 : ℝ) ^ ((1:ℝ)/12) with ht
  have ht0 : (0:ℝ) ≤ t := Real.rpow_nonneg hbase _
  have ht12 : t ^ (12:ℕ) = 1 + 34/1000 := by
    rw [ht, ← Real.rpow_natCast ((1 + 34/1000 : ℝ) ^ ((1:ℝ)/12)) 12,
      ← Real.rpow_mul hbase]
    norm_num
  have hlo : (100279005 : ℝ)/100000000 ≤ t := by
    by_contra hlt
    push_neg at hlt
    have h2 : t ^ (12:ℕ) < ((100279005 : ℝ)/100000000) ^ (12:ℕ) :=
      pow_lt_pow_left₀ hlt ht0 (by norm_num)
    rw [ht12] at h2
    have h3 : ((100279005 : ℝ)/100000000) ^ (12:ℕ) ≤ 1 + 34/1000 := by norm_num
    linarith
  have hhi : t < (100279015 : ℝ)/100000000 := by
    by_contra hge
    push_neg at hge
    have h2 : ((100279015 : ℝ)/100000000) ^ (12:ℕ) ≤ t ^ (12:ℕ) :=
      pow_le_pow_left₀ (by norm_num) hge 12
    rw [ht12] at h2
    have h3 : (1 + 34/1000 : ℝ) < ((100279015 : ℝ)/100000000) ^ (12:ℕ) := by norm_num
    linarith
  rw [Int.floor_eq_iff]
  push_cast
  constructor
  · linarith
  · linarith

/-- Claim C2: the shipped TypeScript `calculateMonthlyInterest` does not
follow the compound monthly-rate convention — at €100,000 and 3.4% it
returns 28393 (from the hard-coded `0.00009159 × 31` rate, ignoring the
rate argument), while the compound convention — implemented by the
compiled dist variant, asserted by the repository's own jest tests, and
required by the claim — yields 27901. -/
theorem C2_compound_formula_value :
    MainTS.calculateMonthlyInterest 10000000 (34/1000) = 28393 ∧
    Dist.calculateMonthlyInterest 10000000 (34/1000) = 27901 ∧
    (28393 : Int) ≠ 27901 :=
  ⟨by norm_num [MainTS.calculateMonthlyInterest, jsRound, Int.floor_eq_iff],
    dist_compound_27901, by decide⟩

/-- Claim C8: the engine's `calculateMonthlyInterest` (the
`part_000` / dist behaviour) produces zero at rate zero and non-positive
amounts on non-positive balances with non-negative rates; but the main
TypeScript variant violates this — at rate 0 it still returns a
non-zero amount (3 cents on a 1000-cent balance), because it ignores the
rate argument. -/
theorem C8_sign_and_zero :
    MainTS.calculateMonthlyInterest 1000 0 = 3 ∧
    (∀ b : Int, calculateMonthlyInterest b 0 = 0) ∧
    (∀ (b : Int) (r : ℚ), b ≤ 0 → 0 ≤ r → calculateMonthlyInterest b r ≤ 0) := by
  refine ⟨by norm_num [MainTS.calculateMonthlyInterest, jsRound, Int.floor_eq_iff], ?_, ?_⟩
  · intro b
    show jsRound ((b : ℚ) * ((0 : ℚ)/365 * 30)) = 0
    norm_num [jsRound, Int.floor_eq_iff]
  · intro b r hb hr
    show jsRound ((b : ℚ) * (r/365 * 30)) ≤ 0
    have h1 : (0:ℚ) ≤ r/365 * 30 := by positivity
    have h2 : (b:ℚ) ≤ 0 := by exact_mod_cast hb
    have hx : (b:ℚ) * (r/365 * 30) ≤ 0 := mul_nonpos_iff.mpr (Or.inr ⟨h2, h1⟩)
    have hle : ⌊(b:ℚ) * (r/365 * 30) + 1/2⌋ ≤ ⌊(1:ℚ)/2⌋ := Int.floor_le_floor (by linarith)
    have h0 : ⌊(1:ℚ)/2⌋ = 0 := by norm_num [Int.floor_eq_iff]
    unfold jsRound
    omega

/-- Claim C8 witness: concrete instances — zero rate gives zero interest
and a negative balance gives non-positive interest under the engine's
accrual function, while the main TypeScript variant returns 3 at rate 0. -/
theorem C8_sign_and_zero_witness :
    MainTS.calculateMonthlyInterest 1000 0 = 3 ∧
    calculateMonthlyInterest (-5000) 0 = 0 ∧
    calculateMonthlyInterest (-5000) (4/100) ≤ 0 :=
  ⟨C8_sign_and_zero.1, C8_sign_and_zero.2.1 (-5000),
    C8_sign_and_zero.2.2 (-5000) (4/100) (by norm_num) (by norm_num)⟩

/-! ## Engine-loop lemmas -/

theorem runLoopFuel_zero (cfg : Cfg) (env : Env) (c : CalDate) (L : List Txn) :
    runLoopFuel cfg env 0 c L = (.ok L, []) := by
  unfold runLoopFuel
  split <;> rfl

theorem runLoopFuel_after (cfg : Cfg) (env : Env) (f : Nat) (c : CalDate) (L : List Txn)
    (h : dateLt env.today c) :
    runLoopFuel cfg env f c L = (.ok L, []) := by
  unfold runLoopFuel
  rw [if_pos h]

theorem runLoopFuel_succ_ok (cfg : Cfg) (env : Env) (f : Nat) (c : CalDate)
    (L L' added : List Txn) (h : ¬ dateLt env.today c)
    (hp : processPeriod cfg env c L = .ok (L', added)) :
    runLoopFuel cfg env (f + 1) c L =
      ((runLoopFuel cfg env f (addMonths1 c) L').1,
       added ++ (runLoopFuel cfg env f (addMonths1 c) L').2) := by
  conv_lhs => rw [runLoopFuel]
  rw [if_neg h]
  simp only [hp]

theorem runLoopFuel_succ_error (cfg : Cfg) (env : Env) (f : Nat) (c : CalDate)
    (L : List Txn) (e : String) (h : ¬ dateLt env.today c)
    (hp : processPeriod cfg env c L = .error e) :
    runLoopFuel cfg env (f + 1) c L = (.error e, []) := by
  conv_lhs => rw [runLoopFuel]
  rw [if_neg h]
  simp only [hp]

theorem processPeriod_posted (cfg : Cfg) (env : Env) (c : CalDate) (L : List Txn)
    (h : hasPostedInterest
      (listTransactions L env.mortgageId ⟨c.year, c.month, 1⟩ env.today)
      ("interest-" ++ formatYYYYMM c) = true) :
    processPeriod cfg env c L = .ok (L, []) := by
  unfold processPeriod
  rw [if_pos h]

theorem processPeriod_commit (cfg : Cfg) (env : Env) (c : CalDate) (L : List Txn)
    (bds : BookingDates)
    (hnp : hasPostedInterest
      (listTransactions L env.mortgageId ⟨c.year, c.month, 1⟩ env.today)
      ("interest-" ++ formatYYYYMM c) = false)
    (hbd : calculateBookingDates c cfg.bookingDay = .ok bds)
    (hdry : cfg.dryRun = false) :
    processPeriod cfg env c L =
      .ok (L ++ [interestTxn cfg env c bds], [interestTxn cfg env c bds]) := by
  simp only [processPeriod, interestTxn, hnp, hbd, hdry, Bool.false_eq_true, if_false]

theorem processPeriod_dry (cfg : Cfg) (env : Env) (c : CalDate) (L : List Txn)
    (bds : BookingDates)
    (hnp : hasPostedInterest
      (listTransactions L env.mortgageId ⟨c.year, c.month, 1⟩ env.today)
      ("interest-" ++ formatYYYYMM c) = false)
    (hbd : calculateBookingDates c cfg.bookingDay = .ok bds)
    (hdry : cfg.dryRun = true) :
    processPeriod cfg env c L = .ok (L, []) := by
  simp only [processPeriod, hnp, hbd, hdry, Bool.false_eq_true, if_false, if_true]

theorem processPeriod_shape (cfg : Cfg) (env : Env) (c : CalDate)
    (L L' added : List Txn) (hp : processPeriod cfg env c L = .ok (L', added)) :
    L' = L ++ added := by
  simp only [processPeriod] at hp
  split at hp
  · simp only [Except.ok.injEq, Prod.mk.injEq] at hp
    rw [← hp.1, ← hp.2]
    simp
  · split at hp
    · exact Except.noConfusion hp
    · split at hp
      · simp only [Except.ok.injEq, Prod.mk.injEq] at hp
        rw [← hp.1, ← hp.2]
        simp
      · simp only [Except.ok.injEq, Prod.mk.injEq] at hp
        rw [← hp.1, ← hp.2]

theorem processPeriod_dry_inv (cfg : Cfg) (env : Env) (c : CalDate)
    (L L' added : List Txn) (hdry : cfg.dryRun = true)
    (hp : processPeriod cfg env c L = .ok (L', added)) :
    L' = L ∧ added = [] := by
  simp only [processPeriod, hdry, if_true] at hp
  split at hp
  · simp only [Except.ok.injEq, Prod.mk.injEq] at hp
    exact ⟨hp.1.symm, hp.2.symm⟩
  · split at hp
    · exact Except.noConfusion hp
    · simp only [Except.ok.injEq, Prod.mk.injEq] at hp
      exact ⟨hp.1.symm, hp.2.symm⟩

/-- Claim C6: with the simulate-only (dry-run) flag enabled, the engine
makes no `addTransactions` call for any period of any run, regardless of
idempotency-check outcomes, ledger contents, or errors. -/
theorem C6_dry_run_no_commits (cfg : Cfg) (env : Env) (cursor0 : CalDate)
    (L : List Txn) (hdry : cfg.dryRun = true) :
    (runEngine cfg env cursor0 L).2 = [] := by
  suffices h : ∀ f c ledger, (runLoopFuel cfg env f c ledger).2 = [] by
    exact h _ _ _
  intro f
  induction f with
  | zero =>
    intro c ledger
    rw [runLoopFuel_zero]
  | succ f ih =>
    intro c ledger
    by_cases h : dateLt env.today c
    · rw [runLoopFuel_after cfg env _ c ledger h]
    · cases hp : processPeriod cfg env c ledger with
      | error e => rw [runLoopFuel_succ_error cfg env f c ledger e h hp]
      | ok p =>
        obtain ⟨L', added⟩ := p
        rw [runLoopFuel_succ_ok cfg env f c ledger L' added h hp]
        have hinv := processPeriod_dry_inv cfg env c ledger L' added hdry hp
        simp [hinv.2, ih]

/-- Claim C6 witness: a concrete dry run commits nothing. -/
theorem C6_dry_run_no_commits_witness :
    (⟨4/100, 25, true⟩ : Cfg).dryRun = true ∧
    (runEngine ⟨4/100, 25, true⟩ ⟨"acct", "cat", fun _ => 10000000, ⟨2024, 4, 10⟩⟩
      ⟨2024, 2, 1⟩ []).2 = [] :=
  ⟨rfl, C6_dry_run_no_commits _ _ _ _ rfl⟩

/-! ## Period-cursor lemmas -/

theorem dateLt_of_pair (a b : CalDate)
    (h : a.year < b.year ∨ (a.year = b.year ∧ a.month < b.month)) : dateLt a b := by
  unfold dateLt
  omega

theorem dateLt_addMonths1 (c : CalDate) (h1 : c.day = 1) (h2 : c.month ≤ 11) :
    dateLt c (addMonths1 c) := by
  unfold addMonths1 dateLt
  split <;> simp <;> omega

theorem periodsFromFuel_zero (T : CalDate) (c : CalDate) :
    periodsFromFuel T 0 c = [] := by
  unfold periodsFromFuel
  split <;> rfl

theorem periodsFromFuel_after (T : CalDate) (f : Nat) (c : CalDate) (h : dateLt T c) :
    periodsFromFuel T f c = [] := by
  unfold periodsFromFuel
  rw [if_pos h]

theorem periodsFromFuel_succ (T : CalDate) (f : Nat) (c : CalDate) (h : ¬ dateLt T c) :
    periodsFromFuel T (f + 1) c = c :: periodsFromFuel T f (addMonths1 c) := by
  conv_lhs => rw [periodsFromFuel]
  rw [if_neg h]

theorem periodsFromFuel_head (T : CalDate) (f : Nat) (c : CalDate) :
    periodsFromFuel T f c = [] ∨ (periodsFromFuel T f c).head? = some c := by
  unfold periodsFromFuel
  split
  · exact Or.inl rfl
  · match f with
    | 0 => exact Or.inl rfl
    | f' + 1 => exact Or.inr rfl

theorem periodsFromFuel_day_one (T : CalDate) :
    ∀ (f : Nat) (c : CalDate), c.day = 1 → c.month ≤ 11 →
      ∀ p ∈ periodsFromFuel T f c, p.day = 1 ∧ p.month ≤ 11 := by
  intro f
  induction f with
  | zero =>
    intro c h1 h2 p hp
    rw [periodsFromFuel_zero] at hp
    cases hp
  | succ f ih =>
    intro c h1 h2 p hp
    by_cases h : dateLt T c
    · rw [periodsFromFuel_after T _ c h] at hp
      cases hp
    · rw [periodsFromFuel_succ T f c h] at hp
      rcases List.mem_cons.mp hp with hpc | hptail
      · exact hpc ▸ ⟨h1, h2⟩
      · have hs := addMonths1_day_one c h1 h2
        exact ih (addMonths1 c) hs.1 hs.2 p hptail

theorem periodsFromFuel_chain (T : CalDate) :
    ∀ (f : Nat) (c : CalDate), c.day = 1 → c.month ≤ 11 →
      List.Chain' (fun a b => b = addMonths1 a ∧ dateLt a b) (periodsFromFuel T f c) := by
  intro f
  induction f with
  | zero =>
    intro c h1 h2
    rw [periodsFromFuel_zero]
    exact List.chain'_nil
  | succ f ih =>
    intro c h1 h2
    by_cases h : dateLt T c
    · rw [periodsFromFuel_after T _ c h]
      exact List.chain'_nil
    · rw [periodsFromFuel_succ T f c h]
      have hs := addMonths1_day_one c h1 h2
      rw [List.chain'_cons']
      refine ⟨?_, ih (addMonths1 c) hs.1 hs.2⟩
      intro b hb
      rcases periodsFromFuel_head T f (addMonths1 c) with hnil | hhead
      · rw [hnil] at hb
        cases hb
      · rw [hhead] at hb
        cases hb
        exact ⟨rfl, dateLt_addMonths1 c h1 h2⟩

theorem periodsFromFuel_getLast (T : CalDate) (hT : T.month ≤ 11) (hTd : 1 ≤ T.day) :
    ∀ (f : Nat) (c : CalDate), c.day = 1 → c.month ≤ 11 →
      monthIdx c ≤ monthIdx T → f = (monthIdx T + 1 - monthIdx c).toNat →
      (periodsFromFuel T f c).getLast? = some ⟨T.year, T.month, 1⟩ := by
  intro f
  induction f with
  | zero =>
    intro c h1 h2 hle hf
    omega
  | succ f ih =>
    intro c h1 h2 hle hf
    have hnot := not_after_of_monthIdx_le c T h2 hT h1 hTd hle
    rw [periodsFromFuel_succ T f c hnot]
    by_cases heq : monthIdx c = monthIdx T
    · have hf0 : f = 0 := by omega
      subst hf0
      rw [periodsFromFuel_zero]
      have hpair := pair_of_monthIdx_eq c T h2 hT heq
      have : c = ⟨T.year, T.month, 1⟩ := by
        obtain ⟨cy, cm, cd⟩ := c
        simp only at h1 hpair
        simp [CalDate.mk.injEq, hpair.1, hpair.2, h1]
      rw [this]
      rfl
    · have hs := addMonths1_day_one c h1 h2
      have hidx := monthIdx_addMonths1 c h2
      have htail := ih (addMonths1 c) hs.1 hs.2 (by omega) (by omega)
      cases htl : periodsFromFuel T f (addMonths1 c) with
      | nil => rw [htl] at htail; cases htail
      | cons x xs =>
        rw [htl] at htail
        rw [List.getLast?_cons_cons]
        exact htail

/-- Claim C3: the period sequence of a run is a finite list that steps by
exactly one calendar month (strictly increasing), all elements normalised
to day 1; when the resolved start month is on or before today's month its
first element is the start cursor and its last element is the first of
today's month; it is empty exactly when the start month is strictly
after today's month, and in that case the engine run returns immediately
with the ledger unchanged, zero commits, and no error. -/
theorem C3_period_sequence (cfg : Cfg) (env : Env) (c0 : CalDate) (L : List Txn)
    (h1 : c0.day = 1) (h2 : c0.month ≤ 11)
    (h3 : env.today.month ≤ 11) (h4 : 1 ≤ env.today.day) :
    (periodsFrom c0 env.today = [] ↔ monthIdx env.today < monthIdx c0) ∧
    (∀ p ∈ periodsFrom c0 env.today, p.day = 1) ∧
    List.Chain' (fun a b => b = addMonths1 a ∧ dateLt a b) (periodsFrom c0 env.today) ∧
    (monthIdx c0 ≤ monthIdx env.today →
      (periodsFrom c0 env.today).head? = some c0 ∧
      (periodsFrom c0 env.today).getLast? = some ⟨env.today.year, env.today.month, 1⟩) ∧
    (monthIdx env.today < monthIdx c0 → runEngine cfg env c0 L = (.ok L, [])) := by
  refine ⟨⟨?_, ?_⟩, ?_, ?_, ?_, ?_⟩
  · intro hnil
    by_contra hc
    push_neg at hc
    have hnot := not_after_of_monthIdx_le c0 env.today h2 h3 h1 h4 hc
    have hf : fuelFor c0 env.today = (fuelFor c0 env.today - 1) + 1 := by
      unfold fuelFor
      omega
    unfold periodsFrom at hnil
    rw [hf, periodsFromFuel_succ env.today _ c0 hnot] at hnil
    cases hnil
  · intro hlt
    unfold periodsFrom
    exact periodsFromFuel_after env.today _ c0
      (dateLt_of_pair env.today c0 (pair_of_monthIdx_lt env.today c0 h3 h2 hlt))
  · intro p hp
    exact (periodsFromFuel_day_one env.today _ c0 h1 h2 p hp).1
  · exact periodsFromFuel_chain env.today _ c0 h1 h2
  · intro hle
    constructor
    · rcases periodsFromFuel_head env.today (fuelFor c0 env.today) c0 with hnil | hhead
      · exfalso
        have hnot := not_after_of_monthIdx_le c0 env.today h2 h3 h1 h4 hle
        have hf : fuelFor c0 env.today = (fuelFor c0 env.today - 1) + 1 := by
          unfold fuelFor
          omega
        rw [hf, periodsFromFuel_succ env.today _ c0 hnot] at hnil
        cases hnil
      · exact hhead
    · exact periodsFromFuel_getLast env.today h3 h4 _ c0 h1 h2 hle rfl
  · intro hlt
    have hf : fuelFor c0 env.today = 0 := by
      unfold fuelFor
      omega
    unfold runEngine
    rw [hf]
    exact runLoopFuel_zero cfg env c0 L

/-- Claim C3 witness: starting 2024-01 with today 2024-03-15, the period
list is non-empty, starts at 2024-01-01 and ends at 2024-03-01. -/
theorem C3_period_sequence_witness :
    periodsFrom ⟨2024, 0, 1⟩ ⟨2024, 2, 15⟩ ≠ [] ∧
    (periodsFrom ⟨2024, 0, 1⟩ ⟨2024, 2, 15⟩).head? = some ⟨2024, 0, 1⟩ ∧
    (periodsFrom ⟨2024, 0, 1⟩ ⟨2024, 2, 15⟩).getLast? = some ⟨2024, 2, 1⟩ := by
  have h := C3_period_sequence ⟨4/100, 25, false⟩
    ⟨"acct", "cat", fun _ => 0, ⟨2024, 2, 15⟩⟩ ⟨2024, 0, 1⟩ []
    rfl (by decide) (by decide) (by decide)
  refine ⟨?_, (h.2.2.2.1 (by decide)).1, (h.2.2.2.1 (by decide)).2⟩
  intro hnil
  exact absurd (h.1.mp hnil) (by decide)

/-! ## Idempotence machinery (claim C1) -/

theorem dateLe_of_dateLt (a b : CalDate) (h : dateLt a b) : dateLe a b := by
  unfold dateLt at h
  unfold dateLe
  omega

theorem hasPosted_iff_covers (L : List Txn) (acc : String) (today p : CalDate) :
    hasPostedInterest (listTransactions L acc ⟨p.year, p.month, 1⟩ today)
      ("interest-" ++ formatYYYYMM p) = true ↔ CoversMonth L acc today p := by
  unfold hasPostedInterest listTransactions CoversMonth
  rw [List.any_eq_true]
  constructor
  · rintro ⟨t, ht, heq⟩
    rw [List.mem_filter] at ht
    obtain ⟨htL, hcond⟩ := ht
    simp only [Bool.and_eq_true, beq_iff_eq, decide_eq_true_eq] at hcond heq
    exact ⟨t, htL, hcond.1.1, heq, hcond.1.2, hcond.2⟩
  · rintro ⟨t, htL, hacc, hid, hw1, hw2⟩
    refine ⟨t, List.mem_filter.mpr ⟨htL, ?_⟩, ?_⟩
    · simp only [Bool.and_eq_true, beq_iff_eq, decide_eq_true_eq]
      exact ⟨⟨hacc, hw1⟩, hw2⟩
    · simp only [beq_iff_eq]
      exact hid

theorem runLoopFuel_mem (cfg : Cfg) (env : Env) :
    ∀ (f : Nat) (c : CalDate) (L L' comms : List Txn),
      runLoopFuel cfg env f c L = (.ok L', comms) →
      ∀ t, (t ∈ L ∨ t ∈ comms) → t ∈ L' := by
  intro f
  induction f with
  | zero =>
    intro c L L' comms hrun t ht
    rw [runLoopFuel_zero] at hrun
    simp only [Prod.mk.injEq, Except.ok.injEq] at hrun
    rcases ht with htL | htc
    · exact hrun.1 ▸ htL
    · rw [← hrun.2] at htc
      cases htc
  | succ f ih =>
    intro c L L' comms hrun t ht
    by_cases h : dateLt env.today c
    · rw [runLoopFuel_after cfg env _ c L h] at hrun
      simp only [Prod.mk.injEq, Except.ok.injEq] at hrun
      rcases ht with htL | htc
      · exact hrun.1 ▸ htL
      · rw [← hrun.2] at htc
        cases htc
    · cases hp : processPeriod cfg env c L with
      | error e =>
        rw [runLoopFuel_succ_error cfg env f c L e h hp] at hrun
        simp only [Prod.mk.injEq] at hrun
        exact Except.noConfusion hrun.1
      | ok pr =>
        obtain ⟨L2, added⟩ := pr
        rw [runLoopFuel_succ_ok cfg env f c L L2 added h hp] at hrun
        rcases hres : runLoopFuel cfg env f (addMonths1 c) L2 with ⟨r1, r2⟩
        rw [hres] at hrun
        simp only [Prod.mk.injEq] at hrun
        obtain ⟨hr1, hr2⟩ := hrun
        have hshape := processPeriod_shape cfg env c L L2 added hp
        have hmem := ih (addMonths1 c) L2 L' r2 (by rw [hres, hr1])
        rcases ht with htL | htc
        · exact hmem t (Or.inl (by rw [hshape]; exact List.mem_append_left _ htL))
        · rw [← hr2] at htc
          rcases List.mem_append.mp htc with hta | htr
          · exact hmem t (Or.inl (by rw [hshape]; exact List.mem_append_right _ hta))
          · exact hmem t (Or.inr htr)

theorem runLoopFuel_skipAll (cfg : Cfg) (env : Env)
    (hT : env.today.month ≤ 11) (hTd : 1 ≤ env.today.day) :
    ∀ (f : Nat) (c : CalDate) (L : List Txn), c.day = 1 → c.month ≤ 11 →
      (∀ p : CalDate, p.day = 1 → p.month ≤ 11 → monthIdx c ≤ monthIdx p →
        monthIdx p ≤ monthIdx env.today → CoversMonth L env.mortgageId env.today p) →
      runLoopFuel cfg env f c L = (.ok L, []) := by
  intro f
  induction f with
  | zero =>
    intro c L _ _ _
    exact runLoopFuel_zero cfg env c L
  | succ f ih =>
    intro c L h1 h2 hcov
    by_cases h : dateLt env.today c
    · exact runLoopFuel_after cfg env _ c L h
    · have hle := monthIdx_le_of_not_after c env.today h2 hT h
      have hposted := (hasPosted_iff_covers L env.mortgageId env.today c).mpr
        (hcov c h1 h2 le_rfl hle)
      have hp := processPeriod_posted cfg env c L hposted
      rw [runLoopFuel_succ_ok cfg env f c L L [] h hp]
      have hs := addMonths1_day_one c h1 h2
      have hidx := monthIdx_addMonths1 c h2
      rw [ih (addMonths1 c) L hs.1 hs.2
        (fun p hp1 hp2 hge hle2 => hcov p hp1 hp2 (by omega) hle2)]
      rfl

theorem runLoopFuel_covers (cfg : Cfg) (env : Env)
    (hT : env.today.month ≤ 11) (hTd : 1 ≤ env.today.day)
    (hbd : 1 ≤ cfg.bookingDay)
    (hclamp : min cfg.bookingDay
      ((daysInMonth env.today.year env.today.month : Nat) : Int) ≤ (env.today.day : Int))
    (hdry : cfg.dryRun = false) :
    ∀ (f : Nat) (c : CalDate) (L : List Txn), c.day = 1 → c.month ≤ 11 →
      (monthIdx env.today + 1 - monthIdx c).toNat ≤ f →
      ∃ L' comms, runLoopFuel cfg env f c L = (.ok L', comms) ∧
        ∀ p : CalDate, p.day = 1 → p.month ≤ 11 → monthIdx c ≤ monthIdx p →
          monthIdx p ≤ monthIdx env.today → CoversMonth L' env.mortgageId env.today p := by
  intro f
  induction f with
  | zero =>
    intro c L h1 h2 hf
    refine ⟨L, [], runLoopFuel_zero cfg env c L, ?_⟩
    intro p hp1 hp2 hge hle
    exact ((by omega : False)).elim
  | succ f ih =>
    intro c L h1 h2 hf
    by_cases h : dateLt env.today c
    · refine ⟨L, [], runLoopFuel_after cfg env _ c L h, ?_⟩
      intro p hp1 hp2 hge hle
      have := monthIdx_lt_of_after c env.today h2 hT h1 hTd h
      exact ((by omega : False)).elim
    · have hle := monthIdx_le_of_not_after c env.today h2 hT h
      have hs := addMonths1_day_one c h1 h2
      have hidx := monthIdx_addMonths1 c h2
      have hceta : (⟨c.year, c.month, 1⟩ : CalDate) = c := by
        obtain ⟨cy, cm, cd⟩ := c
        simp only at h1
        rw [h1]
      by_cases hposted : hasPostedInterest
          (listTransactions L env.mortgageId ⟨c.year, c.month, 1⟩ env.today)
          ("interest-" ++ formatYYYYMM c) = true
      · -- the period was already posted: skip and recurse
        have hp := processPeriod_posted cfg env c L hposted
        obtain ⟨L', comms, hrun, hcov⟩ := ih (addMonths1 c) L hs.1 hs.2 (by omega)
        refine ⟨L', [] ++ comms, ?_, ?_⟩
        · rw [runLoopFuel_succ_ok cfg env f c L L [] h hp, hrun]
        · intro p hp1 hp2 hge hle2
          by_cases hpc : monthIdx c = monthIdx p
          · have hpair := pair_of_monthIdx_eq c p h2 hp2 hpc
            have hpeq : p = c := by
              obtain ⟨py, pm, pd⟩ := p
              simp only at hp1 hpair
              have : (⟨py, pm, pd⟩ : CalDate) = ⟨c.year, c.month, c.day⟩ := by
                rw [CalDate.mk.injEq]
                exact ⟨hpair.1.symm, hpair.2.symm, by omega⟩
              exact this
            rw [hpeq]
            obtain ⟨t, htL, hprops⟩ :=
              (hasPosted_iff_covers L env.mortgageId env.today c).mp hposted
            exact ⟨t, runLoopFuel_mem cfg env f (addMonths1 c) L L' comms hrun t
              (Or.inl htL), hprops⟩
          · exact hcov p hp1 hp2 (by omega) hle2
      · -- not posted yet: the engine commits this period
        have hnp : hasPostedInterest
            (listTransactions L env.mortgageId ⟨c.year, c.month, 1⟩ env.today)
            ("interest-" ++ formatYYYYMM c) = false := by
          simpa using hposted
        have hspec := calculateBookingDates_spec c.year c.month cfg.bookingDay h2 hbd
        rw [hceta] at hspec
        have hp := processPeriod_commit cfg env c L _ hnp hspec hdry
        set txn := interestTxn cfg env c
          ⟨⟨c.year, c.month,
            (min cfg.bookingDay ((daysInMonth c.year c.month : Nat) : Int)).toNat⟩,
            lastDayOfPrevMonth c.year c.month⟩ with htxn
        obtain ⟨L', comms, hrun, hcov⟩ := ih (addMonths1 c) (L ++ [txn]) hs.1 hs.2 (by omega)
        refine ⟨L', [txn] ++ comms, ?_, ?_⟩
        · rw [runLoopFuel_succ_ok cfg env f c L (L ++ [txn]) [txn] h hp, hrun]
        · intro p hp1 hp2 hge hle2
          by_cases hpc : monthIdx c = monthIdx p
          · have hpair := pair_of_monthIdx_eq c p h2 hp2 hpc
            have hpeq : p = c := by
              obtain ⟨py, pm, pd⟩ := p
              simp only at hp1 hpair
              have : (⟨py, pm, pd⟩ : CalDate) = ⟨c.year, c.month, c.day⟩ := by
                rw [CalDate.mk.injEq]
                exact ⟨hpair.1.symm, hpair.2.symm, by omega⟩
              exact this
            rw [hpeq]
            have hdimc := daysInMonth_ge c.year c.month
            refine ⟨txn, runLoopFuel_mem cfg env f (addMonths1 c) (L ++ [txn]) L' comms
              hrun txn (Or.inl (List.mem_append_right _ (List.mem_singleton.mpr rfl))),
              rfl, rfl, ?_, ?_⟩
            · show dateLe ⟨c.year, c.month, 1⟩
                ⟨c.year, c.month,
                  (min cfg.bookingDay ((daysInMonth c.year c.month : Nat) : Int)).toNat⟩
              unfold dateLe
              dsimp only
              omega
            · show dateLe
                ⟨c.year, c.month,
                  (min cfg.bookingDay ((daysInMonth c.year c.month : Nat) : Int)).toNat⟩
                env.today
              by_cases heqT : monthIdx c = monthIdx env.today
              · have hpT := pair_of_monthIdx_eq c env.today h2 hT heqT
                rw [hpT.1, hpT.2]
                unfold dateLe
                dsimp only
                omega
              · have hpT := pair_of_monthIdx_lt c env.today h2 hT (by omega)
                unfold dateLe
                dsimp only
                omega
          · exact hcov p hp1 hp2 (by omega) hle2

theorem runLoopFuel_dry_ok (cfg : Cfg) (env : Env)
    (hdry : cfg.dryRun = true) (hbd : 1 ≤ cfg.bookingDay) :
    ∀ (f : Nat) (c : CalDate) (L : List Txn), c.day = 1 → c.month ≤ 11 →
      runLoopFuel cfg env f c L = (.ok L, []) := by
  intro f
  induction f with
  | zero =>
    intro c L _ _
    exact runLoopFuel_zero cfg env c L
  | succ f ih =>
    intro c L h1 h2
    by_cases h : dateLt env.today c
    · exact runLoopFuel_after cfg env _ c L h
    · have hs := addMonths1_day_one c h1 h2
      have hceta : (⟨c.year, c.month, 1⟩ : CalDate) = c := by
        obtain ⟨cy, cm, cd⟩ := c
        simp only at h1
        rw [h1]
      by_cases hposted : hasPostedInterest
          (listTransactions L env.mortgageId ⟨c.year, c.month, 1⟩ env.today)
          ("interest-" ++ formatYYYYMM c) = true
      · have hp := processPeriod_posted cfg env c L hposted
        rw [runLoopFuel_succ_ok cfg env f c L L [] h hp, ih (addMonths1 c) L hs.1 hs.2]
        rfl
      · have hnp : hasPostedInterest
            (listTransactions L env.mortgageId ⟨c.year, c.month, 1⟩ env.today)
            ("interest-" ++ formatYYYYMM c) = false := by
          simpa using hposted
        have hspec := calculateBookingDates_spec c.year c.month cfg.bookingDay h2 hbd
        rw [hceta] at hspec
        have hp := processPeriod_dry cfg env c L _ hnp hspec hdry
        rw [runLoopFuel_succ_ok cfg env f c L L [] h hp, ih (addMonths1 c) L hs.1 hs.2]
        rfl

/-- Claim C1 (amended): the engine is idempotent whenever every processed
period's booking date falls on or before today — equivalently, whenever
the current month's clamped booking day
`min(bookingDay, daysInMonth(today))` is at most today's day-of-month
(periods of earlier months always book before today).  Under that
condition, and for a valid first-of-month start cursor and booking day
`≥ 1`, the first run ends in a ledger `L1`, and a second run over `L1`
finds every period's record inside its existence-check window
`[first-of-month, today]`, skips every period, makes zero
`addTransactions` calls, and leaves the ledger unchanged.  (Without the
booking-date condition this fails: see the counterexample, where a
commit dated after today escapes the check window of the second run.) -/
theorem C1_idempotence_amended (cfg : Cfg) (env : Env) (c0 : CalDate) (L : List Txn)
    (h1 : c0.day = 1) (h2 : c0.month ≤ 11)
    (h3 : env.today.month ≤ 11) (h4 : 1 ≤ env.today.day)
    (h5 : 1 ≤ cfg.bookingDay)
    (h6 : min cfg.bookingDay
      ((daysInMonth env.today.year env.today.month : Nat) : Int) ≤ (env.today.day : Int)) :
    ∃ L1 comms1, runEngine cfg env c0 L = (.ok L1, comms1) ∧
      runEngine cfg env c0 L1 = (.ok L1, []) := by
  cases hdry : cfg.dryRun with
  | true =>
    exact ⟨L, [], runLoopFuel_dry_ok cfg env hdry h5 _ c0 L h1 h2,
      runLoopFuel_dry_ok cfg env hdry h5 _ c0 L h1 h2⟩
  | false =>
    obtain ⟨L1, comms, hrun, hcov⟩ := runLoopFuel_covers cfg env h3 h4 h5 h6 hdry
      (fuelFor c0 env.today) c0 L h1 h2 le_rfl
    exact ⟨L1, comms, hrun, runLoopFuel_skipAll cfg env h3 h4
      (fuelFor c0 env.today) c0 L1 h1 h2 hcov⟩

/-- Claim C1 witness: backfill from March 2024 with today = 2024-04-28 and
booking day 25 (≤ 28): the first run commits, the second run commits
nothing and leaves the ledger unchanged. -/
theorem C1_idempotence_amended_witness :
    (1 : Int) ≤ (⟨4/100, 25, false⟩ : Cfg).bookingDay ∧
    min (⟨4/100, 25, false⟩ : Cfg).bookingDay
      ((daysInMonth 2024 3 : Nat) : Int) ≤ ((28 : Nat) : Int) ∧
    ∃ L1 comms1,
      runEngine ⟨4/100, 25, false⟩ ⟨"acct", "cat", fun _ => 20000000, ⟨2024, 3, 28⟩⟩
        ⟨2024, 1, 1⟩ [] = (.ok L1, comms1) ∧
      runEngine ⟨4/100, 25, false⟩ ⟨"acct", "cat", fun _ => 20000000, ⟨2024, 3, 28⟩⟩
        ⟨2024, 1, 1⟩ L1 = (.ok L1, []) :=
  ⟨by norm_num, by decide,
    C1_idempotence_amended ⟨4/100, 25, false⟩
      ⟨"acct", "cat", fun _ => 20000000, ⟨2024, 3, 28⟩⟩ ⟨2024, 1, 1⟩ []
      rfl (by decide) (by decide) (by decide) (by norm_num) (by decide)⟩

/-- Claim C1 counterexample: with today = 2024-05-10 and booking day 25,
the first run commits the 2024-05 record dated 2024-05-25 — after today.
A second run against the resulting ledger queries transactions only in
the window [2024-05-01, 2024-05-10], misses the record, and calls
`addTransactions` again for the same period, so the second run makes one
commit, not zero. -/
theorem C1_idempotence_counterexample :
    c1Run1.2.map Txn.imported_id = ["interest-2024-05"] ∧
    (runEngine ⟨4/100, 25, false⟩ ⟨"acct", "cat", fun _ => 10000000, ⟨2024, 4, 10⟩⟩
      ⟨2024, 4, 1⟩ c1Ledger1).2.map Txn.imported_id = ["interest-2024-05"] := by
  constructor
  · decide
  · decide

/-! ## Start-date resolution (claim C7) -/

/-- Claim C7 counterexample: an explicitly supplied empty-string start
date cannot be parsed as a calendar date, yet the resolution raises no
error — JavaScript truthiness routes the empty string to the "absent"
branch and the cursor silently starts at today's month.  This falsifies
the claimed "error if and only if supplied and unparseable". -/
theorem C7_start_resolution_counterexample :
    parseISO "" = none ∧
    getCursorStartDate (some "") ⟨2024, 4, 10⟩ = .ok ⟨2024, 4, 1⟩ :=
  ⟨rfl, rfl⟩

/-- Claim C7 (amended): a supplied parseable start date resolves to the
first day of its month; an absent start date — and likewise a supplied
but empty string, which JavaScript truthiness treats as absent — resolves
to the first day of today's month; and the resolution raises an error if
and only if a supplied non-empty start date cannot be parsed. -/
theorem C7_start_resolution_amended (fromDate : Option String) (today : CalDate) :
    (∀ (s : String) (d : CalDate), fromDate = some s → parseISO s = some d →
      getCursorStartDate fromDate today = .ok ⟨d.year, d.month, 1⟩) ∧
    (fromDate = none →
      getCursorStartDate fromDate today = .ok ⟨today.year, today.month, 1⟩) ∧
    (fromDate = some "" →
      getCursorStartDate fromDate today = .ok ⟨today.year, today.month, 1⟩) ∧
    (∀ s : String, fromDate = some s → s ≠ "" → parseISO s = none →
      getCursorStartDate fromDate today = .error ("Invalid FROM_DATE: " ++ s)) ∧
    (∀ e : String, getCursorStartDate fromDate today = .error e →
      ∃ s, fromDate = some s ∧ s ≠ "" ∧ parseISO s = none) := by
  refine ⟨?_, ?_, ?_, ?_, ?_⟩
  · intro s d hs hp
    subst hs
    have hne : s ≠ "" := by
      intro he
      subst he
      rw [show parseISO "" = none from rfl] at hp
      cases hp
    simp only [getCursorStartDate]
    rw [if_pos hne, hp]
  · intro h
    subst h
    rfl
  · intro h
    subst h
    rfl
  · intro s hs hne hp
    subst hs
    simp only [getCursorStartDate]
    rw [if_pos hne, hp]
  · intro e he
    cases fromDate with
    | none => simp [getCursorStartDate] at he
    | some s =>
      simp only [getCursorStartDate] at he
      split at he
      · cases hp : parseISO s with
        | none => exact ⟨s, rfl, by assumption, hp⟩
        | some d =>
          rw [hp] at he
          exact Except.noConfusion he
      · exact Except.noConfusion he

/-- Claim C7 witness: concrete resolutions — "2024-01-15" starts the
cursor at 2024-01-01, an absent value starts it at today's month, and
the non-empty unparseable "not-a-date" raises the configuration error. -/
theorem C7_start_resolution_amended_witness :
    getCursorStartDate (some "2024-01-15") ⟨2030, 7, 9⟩ = .ok ⟨2024, 0, 1⟩ ∧
    getCursorStartDate none ⟨2030, 7, 9⟩ = .ok ⟨2030, 7, 1⟩ ∧
    getCursorStartDate (some "not-a-date") ⟨2030, 7, 9⟩ =
      .error ("Invalid FROM_DATE: " ++ "not-a-date") :=
  ⟨(C7_start_resolution_amended (some "2024-01-15") ⟨2030, 7, 9⟩).1
      "2024-01-15" ⟨2024, 0, 15⟩ rfl (by decide),
   (C7_start_resolution_amended none ⟨2030, 7, 9⟩).2.1 rfl,
   (C7_start_resolution_amended (some "not-a-date") ⟨2030, 7, 9⟩).2.2.2.1
      "not-a-date" rfl (by decide) (by decide)⟩
